import Mathlib

/-!
Verification of the Cornelius isosurface kernel (JETSCAPE).

A shallow embedding, in exact rational arithmetic, of the dimension-generalized
marching-cubes engine found under `external_packages/Cornelius/`:

* `Square.cpp`   — `Square::construct_lines`, `Square::ends_of_edge`,
                   `Square::find_outside`
* `Cube.h` / `Cube.cpp` — `Cube::split_to_squares`, `Cube::construct_polygons`,
                   `Cube::check_ambiguity`
* `Hypercube.h` / `Hypercube.cpp` — `Hypercube::split_to_cubes`,
                   `Hypercube::construct_polyhedra`, `Hypercube::check_ambiguity`
* `Polygon.cpp`  — `Polygon::add_line`
* `Polyhedron.h` / `Polyhedron.cpp` — `Polyhedron::lines_are_connected`,
                   `Polyhedron::add_polygon`
* `Cornelius.cpp` — the facade (`surface_3d`, `find_surface_4d`,
                   `get_centroid_element`, `get_normal_element`)

C++ `double` values are modelled by the exact fraction type `F` below
(an integer numerator over a positive integer denominator); every decision the
code takes (comparisons, sign tests) is an exact rational decision, so the
embedding is faithful for every input whose corner values are representable.
The semantics of `F` is fixed by the evaluation map `F.q : F → ℚ`: two `F`
values denote the same number exactly when their images under `F.q` coincide,
and all order/equality tests used by the embedding are proved to agree with
the corresponding tests on `ℚ`.  `int` quantities are modelled as `ℤ` (or `ℕ`
where the code keeps them non-negative).  `exit(1)` and `throw` are modelled
with `Except`/`Option`.  Points are length-4 lists (the C++ code always works
in `DIM = 4` coordinates).
-/

namespace Cornelius

/-! ## Exact fractions

`F` is an unreduced fraction with a positive denominator.  It exists so that
all concrete runs of the embedding can be checked by kernel evaluation
(`decide`): its arithmetic is plain integer arithmetic, never normalizing. -/

/-- An exact fraction `num / den` with `0 < den`.  The value denoted is
`F.q`. -/
structure F where
  num : ℤ
  den : ℤ
  den_pos : 0 < den

/-- The fraction `n / 1`. -/
def F.ofInt (n : ℤ) : F := ⟨n, 1, Int.zero_lt_one⟩

instance : OfNat F n := ⟨F.ofInt n⟩

instance : Add F :=
  ⟨fun a b => ⟨a.num * b.den + b.num * a.den, a.den * b.den,
    mul_pos a.den_pos b.den_pos⟩⟩

instance : Neg F := ⟨fun a => ⟨-a.num, a.den, a.den_pos⟩⟩

instance : Sub F := ⟨fun a b => a + -b⟩

instance : Mul F :=
  ⟨fun a b => ⟨a.num * b.num, a.den * b.den, mul_pos a.den_pos b.den_pos⟩⟩

/-- Reciprocal.  The reciprocal of a zero-valued fraction is (arbitrarily)
zero; the embedded code only ever divides by quantities its guards have
checked to be nonzero, so this case is never exercised on code paths. -/
def F.inv (a : F) : F :=
  if h : a.num = 0 then ⟨0, 1, Int.zero_lt_one⟩
  else ⟨a.den * Int.sign a.num, (a.num.natAbs : ℤ), by
    have : a.num.natAbs ≠ 0 := Int.natAbs_ne_zero.mpr h
    omega⟩

instance : Div F := ⟨fun a b => a * F.inv b⟩

/-- Absolute value (`std::abs`). -/
def F.abs (a : F) : F := ⟨(a.num.natAbs : ℤ), a.den, a.den_pos⟩

instance : LT F := ⟨fun a b => a.num * b.den < b.num * a.den⟩

instance : LE F := ⟨fun a b => a.num * b.den ≤ b.num * a.den⟩

/-- Value equality of fractions: the C++ `==` on `double`s. -/
def F.veq (a b : F) : Prop := a.num * b.den = b.num * a.den

instance (a b : F) : Decidable (a < b) :=
  inferInstanceAs (Decidable (a.num * b.den < b.num * a.den))

instance (a b : F) : Decidable (a ≤ b) :=
  inferInstanceAs (Decidable (a.num * b.den ≤ b.num * a.den))

instance (a b : F) : Decidable (F.veq a b) :=
  inferInstanceAs (Decidable (_ = _))

/-- C++ `double` → `int` conversion: truncation toward zero. -/
def F.truncInt (a : F) : ℤ := Int.sign a.num * ((a.num.natAbs / a.den.natAbs : ℕ) : ℤ)

/-- The rational value denoted by a fraction.  The transfer lemmas relating
the operations on `F` to the rational operations on these values open the
theorem part of this file. -/
def F.q (a : F) : ℚ := (a.num : ℚ) / (a.den : ℚ)

instance (priority := low) : Zero F := ⟨F.ofInt 0⟩

instance (priority := low) : One F := ⟨F.ofInt 1⟩

/-! ## Basic geometry carriers -/

/-- A coordinate point: `std::array<double, DIM>` with `DIM = 4`,
modelled as a list of fractions (callers always build length-4 lists). -/
abbrev Point := List F

/-- Read coordinate `i` of a point (out-of-range reads give `0`;
the code never performs such reads on well-formed data). -/
def coord (p : Point) (i : ℕ) : F := p.getD i 0

/-- Constant `GeneralGeometryElement::EPSILON = 1e-10`, the tolerance used by all
point-coincidence tests (`Polygon::add_line`,
`Polyhedron::lines_are_connected`). -/
def EPSILON : F := ⟨1, 10 ^ 10, by norm_num⟩

/-- Modelled from the spec: `ALMOST_ZERO`, the small positive offset used by
`Square::ends_of_edge` when a corner sits exactly on the threshold (declared in
`Square.h`, which is not part of the repository snapshot; the spec only fixes
that it is a small positive epsilon).  No theorem below depends on its value,
only on the branch structure that uses it. -/
def ALMOST_ZERO : F := ⟨1, 10 ^ 10, by norm_num⟩

/-- Modelled from the spec: `ALMOST_ONE`, the companion offset just below one
(see `ALMOST_ZERO`). -/
def ALMOST_ONE : F := ⟨10 ^ 10 - 1, 10 ^ 10, by norm_num⟩

/-- Sum of coordinate-wise absolute differences of two points, the quantity
accumulated by the `for (i < DIM)` loops of `Polygon::add_line` and
`Polyhedron::lines_are_connected`. -/
def absDistSum (p q : Point) : F :=
  (List.zipWith (fun a b => F.abs (a - b)) p q).sum

/-- Type `Line` (from `Line.h`, whose algorithmic content is fixed by its callers in
`Square.cpp`, `Polygon.cpp` and `Polyhedron.cpp`): two endpoints, the
representative outside point and the two constant coordinate indices. -/
structure Line where
  startP : Point
  endP : Point
  outP : Point
  constIdx : List ℕ

/-- Method `Line::flip_start_end`: swap start and end points (used by
`Polygon::add_line` when the candidate line's end matches). -/
def Line.flip (l : Line) : Line := { l with startP := l.endP, endP := l.startP }

/-! ## Square (`Square.cpp`)

A `Square` holds a 2×2 block of corner values `points[i][j]`, the two varying
coordinate indices `x1 x2`, the two constant coordinate indices `const_i` with
their values `const_value`, and the grid spacings `dx`.  `init_square`
(declared in the absent `Square.h`; per the spec, re-initialization "resets all
counters and buffers") resets `number_cuts`, `number_lines` and `ambiguous`,
which the purely functional embedding below makes implicit. -/

structure SquareIn where
  /-- Corner `points[0][0]`. -/
  p00 : F
  /-- Corner `points[0][1]`. -/
  p01 : F
  /-- Corner `points[1][0]`. -/
  p10 : F
  /-- Corner `points[1][1]`. -/
  p11 : F
  /-- first varying coordinate index `x1` -/
  x1 : ℕ
  /-- second varying coordinate index `x2` -/
  x2 : ℕ
  /-- Constant index `const_i[0]`. -/
  c1 : ℕ
  /-- Constant index `const_i[1]`. -/
  c2 : ℕ
  /-- Constant coordinate `const_value[0]`. -/
  cv1 : F
  /-- Constant coordinate `const_value[1]`. -/
  cv2 : F
  /-- grid spacings `dx[0..3]` -/
  dx : List F

/-- The corner mask of `Square::construct_lines`:
`(p00 >= v) | (p01 >= v) << 1 | (p10 >= v) << 2 | (p11 >= v) << 3`. -/
def squareMask (s : SquareIn) (v : F) : ℕ :=
  (if v ≤ s.p00 then 1 else 0) + (if v ≤ s.p01 then 2 else 0) +
    (if v ≤ s.p10 then 4 else 0) + (if v ≤ s.p11 then 8 else 0)

/-- One edge test of `Square::ends_of_edge`: the cut point `pt` is recorded if
the two corner offsets multiply negatively, while the exact-on-threshold cases
get the `ALMOST_ZERO`/`ALMOST_ONE` cut points `ptA`/`ptB`.  `a`, `b` are the
corner values at the two ends of the edge. -/
def edgeCuts (a b v : F) (pt ptA ptB : F × F) : List (F × F) :=
  if (a - v) * (b - v) < 0 then [pt]
  else if F.veq a v ∧ b < v then [ptA]
  else if F.veq b v ∧ a < v then [ptB]
  else []

/-- Method `Square::ends_of_edge`: the recorded cut points, in recording order
(edge 1: `p00`–`p10`, edge 2: `p00`–`p01`, edge 3: `p10`–`p11`,
edge 4: `p01`–`p11`).  Cut coordinates are in the square's local
`(x1, x2)` frame, scaled by `dx[x1]`, `dx[x2]` exactly as in the code. -/
def endsOfEdge (s : SquareIn) (v : F) : List (F × F) :=
  let d1 := coord s.dx s.x1
  let d2 := coord s.dx s.x2
  edgeCuts s.p00 s.p10 v ((s.p00 - v) / (s.p00 - s.p10) * d1, 0)
      (ALMOST_ZERO * d1, 0) (ALMOST_ONE * d1, 0) ++
    edgeCuts s.p00 s.p01 v (0, (s.p00 - v) / (s.p00 - s.p01) * d2)
      (0, ALMOST_ZERO * d2) (0, ALMOST_ONE * d2) ++
    edgeCuts s.p10 s.p11 v (d1, (s.p10 - v) / (s.p10 - s.p11) * d2)
      (d1, ALMOST_ZERO * d2) (d1, ALMOST_ONE * d2) ++
    edgeCuts s.p01 s.p11 v ((s.p01 - v) / (s.p01 - s.p11) * d1, d2)
      (ALMOST_ZERO * d1, d2) (ALMOST_ONE * d1, d2)

/-- The `exit(1)` consistency check at the end of `Square::ends_of_edge`:
`number_cuts != 0 && number_cuts != 2 && number_cuts != 4`. -/
def endsOfEdgeFatal (s : SquareIn) (v : F) : Prop :=
  (endsOfEdge s v).length ≠ 0 ∧ (endsOfEdge s v).length ≠ 2 ∧
    (endsOfEdge s v).length ≠ 4

/-- The swap test of `Square::find_outside` in the four-cut case: cuts 1 and 2
are exchanged when the corner `(0,0)` and the cell-centre value are strictly on
the same side of the threshold. -/
def findOutsideSwaps (s : SquareIn) (v : F) : Bool :=
  let vm := (s.p00 + s.p01 + s.p10 + s.p11) / 4
  decide ((s.p00 < v ∧ vm < v) ∨ (v < s.p00 ∧ v < vm))

/-- Swap entries 1 and 2 of a cut list (`std::swap(cuts[1], cuts[2])`). -/
def swapCuts12 (cuts : List (F × F)) : List (F × F) :=
  match cuts with
  | c0 :: c1 :: c2 :: rest => c0 :: c2 :: c1 :: rest
  | other => other

/-- Method `Square::find_outside`: returns the (possibly reordered) cut list together
with the two outside points `out[0]`, `out[1]` in square-local coordinates.
Only called by `construct_lines` when `number_cuts > 0`. -/
def findOutside (s : SquareIn) (v : F) (cuts : List (F × F)) :
    List (F × F) × ((F × F) × (F × F)) :=
  let d1 := coord s.dx s.x1
  let d2 := coord s.dx s.x2
  if cuts.length = 4 then
    let vm := (s.p00 + s.p01 + s.p10 + s.p11) / 4
    let cuts' := if findOutsideSwaps s v then swapCuts12 cuts else cuts
    let outs : (F × F) × (F × F) :=
      if vm < v then ((d1 / 2, d2 / 2), (d1 / 2, d2 / 2))
      else if s.p00 < v then ((0, 0), (d1, d2))
      else ((d1, 0), (0, d2))
    (cuts', outs)
  else
    let below : List (F × F) :=
      (if s.p00 < v then [((0 : F), (0 : F))] else []) ++
        (if s.p01 < v then [(0, d2)] else []) ++
        (if s.p10 < v then [(d1, 0)] else []) ++
        (if s.p11 < v then [(d1, d2)] else [])
    if below.length = 0 then (cuts, ((0, 0), (0, 0)))
    else
      (cuts,
        (((below.map Prod.fst).sum / F.ofInt below.length,
           (below.map Prod.snd).sum / F.ofInt below.length), (0, 0)))

/-- Build the full 4-coordinate point of `Square::construct_lines` from a
square-local pair: coordinates `x1`, `x2` carry the pair, the two constant
coordinates carry `const_value`. -/
def squarePoint (s : SquareIn) (c : F × F) : Point :=
  ((((List.replicate 4 (0 : F)).set s.x1 c.1).set s.x2 c.2).set s.c1
      s.cv1).set s.c2 s.cv2

/-- The line-building loop at the end of `Square::construct_lines`: cuts are
consumed two at a time, cut pair `i` receiving outside point `out[i/2]`. -/
def mkSquareLines (s : SquareIn) (outs : (F × F) × (F × F)) :
    List (F × F) → List Line
  | c0 :: c1 :: rest =>
    { startP := squarePoint s c0, endP := squarePoint s c1,
      outP := squarePoint s outs.1, constIdx := [s.c1, s.c2] } ::
      (mkSquareLines s (outs.2, outs.2) rest)
  | _ => []

/-- Result of `Square::construct_lines`. -/
structure SquareOut where
  numberLines : ℕ
  ambiguous : Bool
  lines : List Line

/-- Method `Square::construct_lines`: the full per-square computation.  If the corner
mask is `0` or `15` there are no lines; otherwise the edge cuts are found,
`find_outside` possibly reorders them (four-cut case) and computes the outside
points, and consecutive cut pairs become `Line`s. -/
def constructLines (s : SquareIn) (v : F) : SquareOut :=
  if squareMask s v = 0 ∨ squareMask s v = 15 then
    { numberLines := 0, ambiguous := false, lines := [] }
  else
    let cuts := endsOfEdge s v
    let r := if cuts.length > 0 then findOutside s v cuts
      else (cuts, ((0, 0), (0, 0)))
    let lines := mkSquareLines s r.2 r.1
    { numberLines := lines.length, ambiguous := decide (cuts.length = 4),
      lines := lines }

/-! ## Cube (`Cube.h`, `Cube.cpp`)

A `Cube` holds a 2×2×2 block of values `cube[a][b][c]`, one constant
coordinate `const_i` with value `const_value`, and the varying coordinates
`x1 < x2 < x3` given by the `x_lookup` table of `Cube::init_cube`. -/

/-- A 2×2×2 block of corner values, `cube[a][b][c]`. -/
abbrev Grid3 := List (List (List F))

/-- Read entry `cube[a][b][c]`. -/
def g3 (cu : Grid3) (a b c : ℕ) : F := ((cu.getD a []).getD b []).getD c 0

/-- The eight corner values of a cube, in the iteration order of the range
loops of `Cornelius::surface_3d`. -/
def corners3 (cu : Grid3) : List F :=
  [g3 cu 0 0 0, g3 cu 0 0 1, g3 cu 0 1 0, g3 cu 0 1 1,
   g3 cu 1 0 0, g3 cu 1 0 1, g3 cu 1 1 0, g3 cu 1 1 1]

/-- The `x_lookup` table of `Cube::init_cube`: the three varying coordinate
indices, in ascending order, for a given constant index. -/
def xLookup : ℕ → ℕ × ℕ × ℕ
  | 0 => (1, 2, 3)
  | 1 => (0, 2, 3)
  | 2 => (0, 1, 3)
  | _ => (0, 1, 2)

/-- Build a 2×2 square block as a `SquareIn`.  The square's own varying
indices are the ascending complement of its two constant indices, as set by
`Square::init_square` (declared in the absent `Square.h`; forced by the spec's
"two free coordinates found in the 2-D face" and by the layout the extraction
loops of `Cube::split_to_squares` use). -/
def mkSquareIn (f : ℕ → ℕ → F) (sx1 sx2 c1 c2 : ℕ) (cv1 cv2 : F)
    (dx : List F) : SquareIn :=
  { p00 := f 0 0, p01 := f 0 1, p10 := f 1 0, p11 := f 1 1,
    x1 := sx1, x2 := sx2, c1 := c1, c2 := c2, cv1 := cv1, cv2 := cv2, dx := dx }

/-- Method `Cube::split_to_squares`: the six squares of a cube, in the loop order
`(i, j)` with `i` running over the varying coordinates ascending and
`j ∈ {0, 1}`.  Square `(i, j)` holds the face with coordinate `i` fixed to
`j * dx[i]`; its 2×2 block is extracted exactly as in the three `memcpy`
branches. -/
def cubeSquares (cu : Grid3) (constI : ℕ) (constV : F) (dx : List F) :
    List SquareIn :=
  let (x1, x2, x3) := xLookup constI
  [mkSquareIn (fun a b => g3 cu 0 a b) x2 x3 constI x1 constV 0 dx,
   mkSquareIn (fun a b => g3 cu 1 a b) x2 x3 constI x1 constV (coord dx x1) dx,
   mkSquareIn (fun a b => g3 cu a 0 b) x1 x3 constI x2 constV 0 dx,
   mkSquareIn (fun a b => g3 cu a 1 b) x1 x3 constI x2 constV (coord dx x2) dx,
   mkSquareIn (fun a b => g3 cu a b 0) x1 x2 constI x3 constV 0 dx,
   mkSquareIn (fun a b => g3 cu a b 1) x1 x2 constI x3 constV (coord dx x3) dx]

/-- The per-cube data computed by the first half of `Cube::construct_polygons`
(line collection and `Cube::check_ambiguity`), before any polygon is built. -/
structure CubeMeta where
  numberLines : ℕ
  anySquareAmbiguous : Bool
  ambiguous : Bool
  lines : List Line

/-- The line-collection and ambiguity-check phase of
`Cube::construct_polygons`: each square contributes its lines in order;
if no line was found the cube returns immediately with `ambiguous = false`
(set by `init_cube`); otherwise `check_ambiguity` flags the cube when some
square is ambiguous or when exactly 6 lines were found. -/
def cubeMeta (cu : Grid3) (constI : ℕ) (constV : F) (dx : List F) (v : F) :
    CubeMeta :=
  let outs := (cubeSquares cu constI constV dx).map (constructLines · v)
  let lines := (outs.map SquareOut.lines).flatten
  let anySq := outs.any SquareOut.ambiguous
  { numberLines := lines.length,
    anySquareAmbiguous := anySq,
    ambiguous :=
      if lines.length = 0 then false else anySq || decide (lines.length = 6),
    lines := lines }

/-! ## Hypercube (`Hypercube.h`, `Hypercube.cpp`) -/

/-- A 2×2×2×2 block of corner values, `hypercube[a][b][c][d]`. -/
abbrev Grid4 := List Grid3

/-- Read entry `hypercube[a][b][c][d]`. -/
def g4 (hc : Grid4) (a b c d : ℕ) : F := g3 (hc.getD a []) b c d

/-- The sixteen corner values of a hypercube, in the iteration order of the
`i == 0` pass of `Hypercube::split_to_cubes` (which is where
`number_points_below_value` is counted, visiting every corner once). -/
def corners4 (hc : Grid4) : List F :=
  [g4 hc 0 0 0 0, g4 hc 0 0 0 1, g4 hc 0 0 1 0, g4 hc 0 0 1 1,
   g4 hc 0 1 0 0, g4 hc 0 1 0 1, g4 hc 0 1 1 0, g4 hc 0 1 1 1,
   g4 hc 1 0 0 0, g4 hc 1 0 0 1, g4 hc 1 0 1 0, g4 hc 1 0 1 1,
   g4 hc 1 1 0 0, g4 hc 1 1 0 1, g4 hc 1 1 1 0, g4 hc 1 1 1 1]

/-- The value returned by `Hypercube::split_to_cubes`: the number of the 16
corner values strictly below the threshold. -/
def pointsBelow4 (hc : Grid4) (v : F) : ℕ :=
  (corners4 hc).countP fun x => decide (x < v)

/-- Build a 2×2×2 block from an index function. -/
def mkGrid3 (f : ℕ → ℕ → ℕ → F) : Grid3 :=
  [[[f 0 0 0, f 0 0 1], [f 0 1 0, f 0 1 1]],
   [[f 1 0 0, f 1 0 1], [f 1 1 0, f 1 1 1]]]

/-- Method `Hypercube::split_to_cubes`: the eight cubes `(i, j)` with `i` the dropped
dimension and `j ∈ {0, 1}` its fixed side; each carries `const_i = i` and
`const_value = j * dx[i]`. -/
def splitToCubes (hc : Grid4) (dx : List F) : List (Grid3 × ℕ × F) :=
  [(mkGrid3 (g4 hc 0), 0, 0), (mkGrid3 (g4 hc 1), 0, coord dx 0),
   (mkGrid3 (fun a b c => g4 hc a 0 b c), 1, 0),
   (mkGrid3 (fun a b c => g4 hc a 1 b c), 1, coord dx 1),
   (mkGrid3 (fun a b c => g4 hc a b 0 c), 2, 0),
   (mkGrid3 (fun a b c => g4 hc a b 1 c), 2, coord dx 2),
   (mkGrid3 (fun a b c => g4 hc a b c 0), 3, 0),
   (mkGrid3 (fun a b c => g4 hc a b c 1), 3, coord dx 3)]

/-- The per-cube metadata of a hypercube query, in cube order. -/
def hypercubeMetas (hc : Grid4) (dx : List F) (v : F) : List CubeMeta :=
  (splitToCubes hc dx).map fun t => cubeMeta t.1 t.2.1 t.2.2 dx v

/-- Method `Hypercube::check_ambiguity(int number_points_below_value)` exactly as
written in `Hypercube.h`: ambiguous when some cube is ambiguous, or when the
total line count is 24 and the argument, folded into `[0, 8]` by
`n > 8 → 16 - n`, equals 2.  The parameter is an `int`. -/
def hyperCheckAmbiguity (anyCubeAmb : Bool) (numberLines : ℕ) (npbv : ℤ) :
    Bool :=
  if anyCubeAmb then true
  else
    let folded := if npbv > 8 then 16 - npbv else npbv
    decide (numberLines = 24 ∧ folded = 2)

/-- Total number of lines over the eight cubes of a hypercube query. -/
def hypercubeNumberLines (hc : Grid4) (dx : List F) (v : F) : ℕ :=
  ((hypercubeMetas hc dx v).map CubeMeta.numberLines).sum

/-- Whether some cube of the hypercube is flagged ambiguous. -/
def hypercubeAnyCubeAmbiguous (hc : Grid4) (dx : List F) (v : F) : Bool :=
  (hypercubeMetas hc dx v).any CubeMeta.ambiguous

/-- The `ambiguous` flag of the hypercube as actually computed by
`Hypercube::construct_polyhedra`: it calls `check_ambiguity(value)` — passing
the threshold `value` (a `double`, implicitly truncated to `int`) where the
`int` parameter is documented to be the number of corner points below the
threshold.  The count returned by `split_to_cubes` is computed into
`number_points_below_value` but never passed on. -/
def hypercubeAmbiguousAsCoded (hc : Grid4) (dx : List F) (v : F) : Bool :=
  hyperCheckAmbiguity (hypercubeAnyCubeAmbiguous hc dx v)
    (hypercubeNumberLines hc dx v) (F.truncInt v)

/-! ## Polygon growth (`Polygon.cpp`) and polyhedron growth (`Polyhedron.cpp`)

The greedy chaining loops of `Cube::construct_polygons` and
`Hypercube::construct_polyhedra`. -/

/-- A polygon: the ordered lines collected by `Polygon::add_line`. -/
structure Polygon where
  lines : List Line

/-- Method `Polygon::add_line`: the first line (or any line under
`perform_no_check`) is accepted unconditionally; otherwise the candidate is
accepted when its start or end point lies within `EPSILON` (sum of
coordinate-wise absolute differences, strict) of the running polygon's last
end point, flipping the candidate when its end point is the matching one. -/
def Polygon.addLine (p : Polygon) (l : Line) (noCheck : Bool) :
    Option Polygon :=
  if p.lines.length = 0 || noCheck then some ⟨p.lines ++ [l]⟩
  else
    let lastEnd := (p.lines.getLast?.getD l).endP
    let difference1 := absDistSum l.startP lastEnd
    let difference2 := absDistSum l.endP lastEnd
    if difference1 < EPSILON ∨ difference2 < EPSILON then
      some ⟨p.lines ++ [if difference2 < EPSILON then l.flip else l]⟩
    else none

/-- The freezing accumulation loop of `Polyhedron::lines_are_connected`: the
pair components are the coordinate-wise `|start1[i] - start2[i]|` and
`|end1[i] - start2[i]|` increments; an accumulator stops growing once it
exceeds `EPSILON`, and the loop fails as soon as both have done so. -/
def connectedLoop : List (F × F) → F → F → Bool
  | [], _, _ => true
  | (x, y) :: rest, d1, d2 =>
    let d1' := if d1 ≤ EPSILON then d1 + x else d1
    let d2' := if d2 ≤ EPSILON then d2 + y else d2
    if EPSILON < d1' ∧ EPSILON < d2' then false
    else connectedLoop rest d1' d2'

/-- Method `Polyhedron::lines_are_connected` exactly as written in `Polyhedron.h`:
only the *start* point of the second line is ever compared (against both
endpoints of the first line). -/
def linesAreConnected (l1 l2 : Line) : Bool :=
  connectedLoop
    (List.zipWith (fun a b => (a, b))
      (List.zipWith (fun a b => F.abs (a - b)) l1.startP l2.startP)
      (List.zipWith (fun a b => F.abs (a - b)) l1.endP l2.startP)) 0 0

/-- A polyhedron: the polygons collected by `Polyhedron::add_polygon`. -/
structure Polyhedron where
  polys : List Polygon

/-- Method `Polyhedron::add_polygon`: the first polygon (or any polygon under
`perform_no_check`) is accepted unconditionally; otherwise the candidate is
accepted when one of its lines is `lines_are_connected` to a line of an
already-stored polygon. -/
def Polyhedron.addPolygon (ph : Polyhedron) (p : Polygon) (noCheck : Bool) :
    Option Polyhedron :=
  if ph.polys.length = 0 || noCheck then some ⟨ph.polys ++ [p]⟩
  else if ph.polys.any fun pg =>
      p.lines.any fun lj => pg.lines.any fun lk => linesAreConnected lj lk then
    some ⟨ph.polys ++ [p]⟩
  else none

/-- The inner scan of the chaining loops
(`for (i...) { if (not_used[i] && add(...)) { not_used[i] = 0; used++; i = 0; } }`):
starting from index `start`, try each still-unused item in order; after a
successful attach the `i = 0` assignment followed by the loop increment
restarts the scan at index `1`.  `fuel` bounds the number of loop steps;
every call below supplies more steps than the loop can take. -/
def scanSteps {α β : Type} (attach : β → α → Option β) (items : List α) :
    ℕ → ℕ → β → List Bool → β × List Bool
  | 0, _, b, nu => (b, nu)
  | f + 1, i, b, nu =>
    if h : i < items.length then
      if nu.getD i false then
        match attach b (items.get ⟨i, h⟩) with
        | some b' => scanSteps attach items f 1 b' (nu.set i false)
        | none => scanSteps attach items f (i + 1) b nu
      else scanSteps attach items f (i + 1) b nu
    else (b, nu)

/-- Fuel amply covering a full chaining scan over `items`: at most
`items.length` successful attaches, each followed by at most
`items.length + 1` probe steps. -/
def scanFuel {α : Type} (items : List α) : ℕ :=
  (items.length + 1) * (items.length + 1)

/-- The `do { ... } while (used < number_lines)` loop of
`Cube::construct_polygons` in the ambiguous case: every iteration first checks
that at least 3 unused lines remain (otherwise
`"Error: cannot construct polygon"` and `exit(1)`), then grows one polygon by
repeated scanning.  The outer fuel is at least `lines.length + 1` at every
call site, which the loop (consuming at least one line per iteration) never
exhausts. -/
def cubeDoLoop (lines : List Line) :
    ℕ → ℕ → List Bool → List Polygon → Except String (List Polygon)
  | 0, _, _, _ => .error "fuel"
  | f + 1, used, nu, acc =>
    if lines.length - used < 3 then .error "Error: cannot construct polygon"
    else
      let (poly, nu') :=
        scanSteps (fun p l => p.addLine l false) lines (scanFuel lines) 0
          ⟨[]⟩ nu
      let used' := lines.length - nu'.count true
      if used' < lines.length then cubeDoLoop lines f used' nu' (acc ++ [poly])
      else .ok (acc ++ [poly])

/-- Method `Cube::construct_polygons`, polygon-building phase: zero lines give zero
polygons; the ambiguous case runs the checked chaining loop; otherwise all
lines are appended unchecked to a single polygon. -/
def cubePolygons (cu : Grid3) (constI : ℕ) (constV : F) (dx : List F)
    (v : F) : Except String (List Polygon) :=
  let m := cubeMeta cu constI constV dx v
  if m.numberLines = 0 then .ok []
  else if m.ambiguous then
    cubeDoLoop m.lines (m.lines.length + 1) 0
      (List.replicate m.lines.length true) []
  else
    .ok [⟨m.lines⟩]

/-- The `do { ... } while (used < number_polygons)` loop of
`Hypercube::construct_polyhedra` in the ambiguous case.  Unlike the cube loop
it performs no minimum-remaining check: each iteration unconditionally starts
a new polyhedron and grows it.  `none` is the fuel guard, never reached for
fuel above `polys.length`. -/
def hyperDoLoop (polys : List Polygon) :
    ℕ → ℕ → List Bool → List Polyhedron → Option (List Polyhedron)
  | 0, _, _, _ => none
  | f + 1, _used, nu, acc =>
    let (ph, nu') :=
      scanSteps (fun h p => h.addPolygon p false) polys (scanFuel polys) 0
        ⟨[]⟩ nu
    let used' := polys.length - nu'.count true
    if used' < polys.length then hyperDoLoop polys f used' nu' (acc ++ [ph])
    else some (acc ++ [ph])

/-- All polygons of a hypercube query, collected cube by cube (the
`polygon_refs` array of `Hypercube::construct_polyhedra`). -/
def hypercubePolygons (hc : Grid4) (dx : List F) (v : F) :
    Except String (List Polygon) :=
  ((splitToCubes hc dx).mapM fun t => cubePolygons t.1 t.2.1 t.2.2 dx v).map
    List.flatten

/-- Method `Hypercube::construct_polyhedra`: collect all cube polygons, check
ambiguity (with the `value` argument as coded), then chain polygons into
polyhedra (ambiguous) or put them all unchecked into one polyhedron. -/
def hypercubePolyhedra (hc : Grid4) (dx : List F) (v : F) :
    Except String (List Polyhedron) :=
  match hypercubePolygons hc dx v with
  | .error e => .error e
  | .ok polys =>
    if hypercubeAmbiguousAsCoded hc dx v then
      match
        hyperDoLoop polys (polys.length + 1) 0
          (List.replicate polys.length true) [] with
      | some phs => .ok phs
      | none => .error "fuel"
    else .ok [⟨polys⟩]

/-! ## The Cornelius facade (`Cornelius.cpp`) -/

/-- A 2×2 block of corner values for a 2-D query. -/
abbrev Grid2 := List (List F)

/-- Read entry `cu[a][b]`. -/
def g2 (cu : Grid2) (a b : ℕ) : F := (cu.getD a []).getD b 0

/-- The four corner values of a 2-D cell. -/
def corners2 (cu : Grid2) : List F :=
  [g2 cu 0 0, g2 cu 0 1, g2 cu 1 0, g2 cu 1 1]

/-- The square built by `Cornelius::find_surface_2d`:
`c_i = {0, 1}`, `c_v = {0, 0}`, so the varying coordinates are 2 and 3. -/
def findSurface2dSquare (cu : Grid2) (dx : List F) : SquareIn :=
  mkSquareIn (g2 cu) 2 3 0 1 0 0 dx

/-- Method `Cornelius::find_surface_2d`: `number_elements` is the square's line
count. -/
def findSurface2dCount (cu : Grid2) (dx : List F) (v : F) : ℕ :=
  (constructLines (findSurface2dSquare cu dx) v).numberLines

/-- Method `Cornelius::surface_3d`: the cheap pre-check counts corners with
`element >= value` and short-circuits to zero elements when that count is 0 or
8; otherwise the cube machinery runs (`const_i = 0`, `const_value = 0`) and
`number_elements` is its polygon count. -/
def surface3dCount (cu : Grid3) (dx : List F) (v : F) : Except String ℕ :=
  let valueGreater := (corners3 cu).countP fun x => decide (v ≤ x)
  if valueGreater = 0 ∨ valueGreater = 8 then .ok 0
  else (cubePolygons cu 0 0 dx v).map List.length

/-- Method `Cornelius::find_surface_4d`: same pre-check with 16 corners, then the
hypercube machinery; `number_elements` is its polyhedron count. -/
def findSurface4dCount (hc : Grid4) (dx : List F) (v : F) : Except String ℕ :=
  let valueGreater := (corners4 hc).countP fun x => decide (v ≤ x)
  if valueGreater = 0 ∨ valueGreater = 16 then .ok 0
  else (hypercubePolyhedra hc dx v).map List.length

/-- The result-accessor state of a `Cornelius` object after a query:
`number_elements`, the configured dimension, and the flat `centroids` /
`normals` buffers (rows of `DIM = 4` components; the leading
`DIM - cube_dimension` components are padding). -/
structure CorneliusState where
  numberElements : ℤ
  cubeDimension : ℤ
  centroids : List (List F)
  normals : List (List F)

/-- A raw C++ array access `rows[i][c]` with `int` indices: defined (and equal
to the stored value) only for indices inside the arrays; out-of-bounds access
— in particular any negative index — has no stored value (`none`). -/
def rawAccess (rows : List (List F)) (i c : ℤ) : Option F :=
  if 0 ≤ i ∧ 0 ≤ c then (rows.getD i.toNat []).get? c.toNat else none

/-- The exception text of the accessor guards. -/
def outOfRangeMsg : String :=
  "Cornelius error: asking for an element which does not exist."

/-- Method `Cornelius::get_centroid_element`: throws the (catchable)
`std::out_of_range` when `index >= number_elements` or
`component >= cube_dimension`, otherwise performs the raw array access
`centroids[index][component + (DIM - cube_dimension)]`. -/
def getCentroidElement (st : CorneliusState) (i c : ℤ) :
    Except String (Option F) :=
  if st.numberElements ≤ i ∨ st.cubeDimension ≤ c then .error outOfRangeMsg
  else .ok (rawAccess st.centroids i (c + (4 - st.cubeDimension)))

/-- Method `Cornelius::get_normal_element`: identical guard and access on the
`normals` buffer. -/
def getNormalElement (st : CorneliusState) (i c : ℤ) :
    Except String (Option F) :=
  if st.numberElements ≤ i ∨ st.cubeDimension ≤ c then .error outOfRangeMsg
  else .ok (rawAccess st.normals i (c + (4 - st.cubeDimension)))

/-! ## Concrete query inputs used by counterexamples and witnesses -/

/-- 4-D failing input for the hypercube ambiguity check: corners
`(0,0,0,0)` and `(1,1,1,1)` hold `0`, the other fourteen corners hold `1`.
With threshold `1/2` every one of the 8 cubes sees exactly one below-threshold
corner (3 lines, not ambiguous), for 24 lines total and 2 corners below. -/
def hcC1ex : Grid4 :=
  [[[[0, 1], [1, 1]], [[1, 1], [1, 1]]],
   [[[1, 1], [1, 1]], [[1, 1], [1, 0]]]]

/-- 3-D counterexample cube: corners `(0,0,0)` and `(1,1,1)` hold `1`, the
other six corners hold `0`.  With threshold `1/2`, six corners are below the
threshold, each face holds exactly one above-threshold corner (one line, not
ambiguous), so there are 6 lines and no ambiguous square. -/
def cuC2ex : Grid3 := [[[1, 0], [0, 0]], [[0, 0], [0, 1]]]

/-- 2-D saddle counterexample square: corners `p00 = 0`, `p01 = 1`,
`p10 = 1`, `p11 = 0` on the unit square (a four-cut configuration for any
threshold strictly between 0 and 1). -/
def sqC3ex : SquareIn :=
  { p00 := 0, p01 := 1, p10 := 1, p11 := 0, x1 := 2, x2 := 3, c1 := 0,
    c2 := 1, cv1 := 0, cv2 := 0, dx := [1, 1, 1, 1] }

/-- First line of the C4 counterexample pair. -/
def lineC4a : Line :=
  { startP := [0, 0, 0, 0], endP := [5, 5, 5, 5], outP := [0, 0, 0, 0],
    constIdx := [0, 1] }

/-- Second line of the C4 counterexample pair: its *end* point coincides
exactly with the end point of `lineC4a`, while its start point is far from
both endpoints of `lineC4a`. -/
def lineC4b : Line :=
  { startP := [9, 9, 9, 9], endP := [5, 5, 5, 5], outP := [0, 0, 0, 0],
    constIdx := [0, 2] }

/-- Build a line with a default outside point (C7 example data). -/
def mkPlainLine (a b : Point) : Line :=
  { startP := a, endP := b, outP := [0, 0, 0, 0], constIdx := [0, 0] }

/-- A triangle polygon (C7 example data). -/
def triC7a : Polygon :=
  ⟨[mkPlainLine [0, 0, 0, 1] [0, 0, 1, 0], mkPlainLine [0, 0, 1, 0] [0, 1, 0, 0],
    mkPlainLine [0, 1, 0, 0] [0, 0, 0, 1]]⟩

/-- A second triangle polygon, far from `triC7a`, so that the two polygons are
not `lines_are_connected` to each other (C7 example data). -/
def triC7b : Polygon :=
  ⟨[mkPlainLine [0, 50, 50, 51] [0, 50, 51, 50],
    mkPlainLine [0, 50, 51, 50] [0, 51, 50, 50],
    mkPlainLine [0, 51, 50, 50] [0, 50, 50, 51]]⟩

/-- A post-query accessor state for a 3-D query with one element (C8 witness
data): row layout `DIM = 4` with one leading padding component. -/
def stC8ex : CorneliusState :=
  { numberElements := 1, cubeDimension := 3,
    centroids := [[0, 10, 20, 30]], normals := [[7, 1, 2, 3]] }

/-- A post-query accessor state for a 3-D query with one element (C10
counterexample data). -/
def stC10ex : CorneliusState :=
  { numberElements := 1, cubeDimension := 3,
    centroids := [[0, 10, 20, 30]], normals := [[7, 1, 2, 3]] }

/-- All-corners-below-threshold inputs for the C5 witness. -/
def cu2C5ex : Grid2 := [[1, 1], [1, 1]]

/-- All-corners-below-threshold 3-D input for the C5 witness. -/
def cu3C5ex : Grid3 := [[[1, 1], [1, 1]], [[1, 1], [1, 1]]]

/-- All-corners-below-threshold 4-D input for the C5 witness. -/
def hc4C5ex : Grid4 :=
  [[[[1, 1], [1, 1]], [[1, 1], [1, 1]]],
   [[[1, 1], [1, 1]], [[1, 1], [1, 1]]]]

/-! ## Transfer of the fraction operations to their rational values -/

theorem F.den_q_pos (a : F) : (0 : ℚ) < (a.den : ℚ) := by exact_mod_cast a.den_pos

theorem F.den_q_ne (a : F) : (a.den : ℚ) ≠ 0 := (F.den_q_pos a).ne'

@[simp] theorem F.q_ofInt (n : ℤ) : F.q (F.ofInt n) = n := by
  rw [F.ofInt, F.q]
  push_cast
  exact div_one _

@[simp] theorem F.q_ofNat (n : ℕ) : F.q (OfNat.ofNat n) = n := by
  show F.q (F.ofInt n) = n
  rw [F.q_ofInt]
  norm_num

@[simp] theorem F.q_zero : F.q 0 = 0 := by
  show F.q (F.ofInt 0) = 0
  rw [F.q_ofInt]
  norm_num

@[simp] theorem F.q_one : F.q 1 = 1 := by
  show F.q (F.ofInt 1) = 1
  rw [F.q_ofInt]
  norm_num

@[simp] theorem F.q_add (a b : F) : F.q (a + b) = F.q a + F.q b := by
  show F.q ⟨a.num * b.den + b.num * a.den, a.den * b.den, _⟩ = _
  rw [F.q, F.q, F.q]
  rw [div_add_div _ _ (F.den_q_ne a) (F.den_q_ne b)]
  push_cast
  ring_nf

@[simp] theorem F.q_neg (a : F) : F.q (-a) = -F.q a := by
  show F.q ⟨-a.num, a.den, _⟩ = _
  rw [F.q, F.q]
  push_cast
  ring

@[simp] theorem F.q_sub (a b : F) : F.q (a - b) = F.q a - F.q b := by
  show F.q (a + -b) = _
  rw [F.q_add, F.q_neg]
  ring

@[simp] theorem F.q_mul (a b : F) : F.q (a * b) = F.q a * F.q b := by
  show F.q ⟨a.num * b.num, a.den * b.den, _⟩ = _
  rw [F.q, F.q, F.q]
  push_cast
  rw [div_mul_div_comm]

@[simp] theorem F.q_inv (a : F) : F.q a.inv = (F.q a)⁻¹ := by
  rw [F.inv]
  by_cases h : a.num = 0
  · simp [h, F.q]
  · rw [dif_neg h, F.q, F.q, inv_div]
    rcases Int.lt_or_lt_of_ne h with hn | hn
    · have hq : (a.num : ℚ) < 0 := by exact_mod_cast hn
      rw [Int.sign_eq_neg_one_of_neg hn]
      push_cast
      rw [abs_of_neg hq, mul_neg_one, neg_div_neg_eq]
    · have hq : (0 : ℚ) < (a.num : ℚ) := by exact_mod_cast hn
      rw [Int.sign_eq_one_of_pos hn]
      push_cast
      rw [abs_of_pos hq, mul_one]

@[simp] theorem F.q_div (a b : F) : F.q (a / b) = F.q a / F.q b := by
  show F.q (a * b.inv) = _
  rw [F.q_mul, F.q_inv, div_eq_mul_inv]

@[simp] theorem F.q_abs (a : F) : F.q a.abs = |F.q a| := by
  rw [F.abs, F.q, F.q, abs_div, abs_of_pos (F.den_q_pos a)]
  congr 1
  push_cast
  rfl

theorem F.lt_iff (a b : F) : a < b ↔ F.q a < F.q b := by
  show a.num * b.den < b.num * a.den ↔ _
  rw [F.q, F.q, div_lt_div_iff₀ (F.den_q_pos a) (F.den_q_pos b)]
  exact_mod_cast Iff.rfl

theorem F.le_iff (a b : F) : a ≤ b ↔ F.q a ≤ F.q b := by
  show a.num * b.den ≤ b.num * a.den ↔ _
  rw [F.q, F.q, div_le_div_iff₀ (F.den_q_pos a) (F.den_q_pos b)]
  exact_mod_cast Iff.rfl

theorem F.veq_iff (a b : F) : F.veq a b ↔ F.q a = F.q b := by
  rw [F.veq, F.q, F.q, div_eq_div_iff (F.den_q_ne a) (F.den_q_ne b)]
  exact_mod_cast Iff.rfl

@[simp] theorem F.q_zero' : F.q Zero.zero = 0 := by
  show F.q (F.ofInt 0) = 0
  rw [F.q_ofInt]
  norm_num

/-! ## Edge-cut counting (claim C6) -/

/-- An edge records a cut exactly when its two corners lie on different sides
of the threshold in the `>= value` sense used by the corner mask. -/
theorem edgeCuts_length (a b v : F) (pt ptA ptB : F × F) :
    (edgeCuts a b v pt ptA ptB).length = if (v ≤ a ↔ v ≤ b) then 0 else 1 := by
  rcases lt_trichotomy (F.q a) (F.q v) with ha | ha | ha <;>
      rcases lt_trichotomy (F.q b) (F.q v) with hb | hb | hb
  · have h1 : ¬(a - v) * (b - v) < 0 := by
      rw [F.lt_iff]
      simp only [F.q_mul, F.q_sub, F.q_zero]
      nlinarith
    have h2 : ¬F.veq a v := by rw [F.veq_iff]; exact ne_of_lt ha
    have h3 : ¬F.veq b v := by rw [F.veq_iff]; exact ne_of_lt hb
    have h4 : ¬v ≤ a := by rw [F.le_iff]; exact not_le.mpr ha
    have h5 : ¬v ≤ b := by rw [F.le_iff]; exact not_le.mpr hb
    simp [edgeCuts, h1, h2, h3, h4, h5]
  · have h1 : ¬(a - v) * (b - v) < 0 := by
      rw [F.lt_iff]
      simp only [F.q_mul, F.q_sub, F.q_zero]
      nlinarith
    have h2 : ¬F.veq a v := by rw [F.veq_iff]; exact ne_of_lt ha
    have h3 : F.veq b v := (F.veq_iff b v).mpr hb
    have h3' : a < v := by rw [F.lt_iff]; exact ha
    have h4 : ¬v ≤ a := by rw [F.le_iff]; exact not_le.mpr ha
    have h5 : v ≤ b := by rw [F.le_iff]; exact le_of_eq hb.symm
    simp [edgeCuts, h1, h2, h3, h3', h4, h5]
  · have h1 : (a - v) * (b - v) < 0 := by
      rw [F.lt_iff]
      simp only [F.q_mul, F.q_sub, F.q_zero]
      nlinarith
    have h4 : ¬v ≤ a := by rw [F.le_iff]; exact not_le.mpr ha
    have h5 : v ≤ b := by rw [F.le_iff]; exact le_of_lt hb
    simp [edgeCuts, h1, h4, h5]
  · have h1 : ¬(a - v) * (b - v) < 0 := by
      rw [F.lt_iff]
      simp only [F.q_mul, F.q_sub, F.q_zero]
      nlinarith
    have h2 : F.veq a v := (F.veq_iff a v).mpr ha
    have h2' : b < v := by rw [F.lt_iff]; exact hb
    have h4 : v ≤ a := by rw [F.le_iff]; exact le_of_eq ha.symm
    have h5 : ¬v ≤ b := by rw [F.le_iff]; exact not_le.mpr hb
    simp [edgeCuts, h1, h2, h2', h4, h5]
  · have h1 : ¬(a - v) * (b - v) < 0 := by
      rw [F.lt_iff]
      simp only [F.q_mul, F.q_sub, F.q_zero]
      nlinarith
    have h2' : ¬b < v := by rw [F.lt_iff]; exact not_lt.mpr (le_of_eq hb.symm)
    have h3' : ¬a < v := by rw [F.lt_iff]; exact not_lt.mpr (le_of_eq ha.symm)
    have h4 : v ≤ a := by rw [F.le_iff]; exact le_of_eq ha.symm
    have h5 : v ≤ b := by rw [F.le_iff]; exact le_of_eq hb.symm
    simp [edgeCuts, h1, h2', h3', h4, h5]
  · have h1 : ¬(a - v) * (b - v) < 0 := by
      rw [F.lt_iff]
      simp only [F.q_mul, F.q_sub, F.q_zero]
      nlinarith
    have h2' : ¬b < v := by rw [F.lt_iff]; exact not_lt.mpr (le_of_lt hb)
    have h3' : ¬a < v := by rw [F.lt_iff]; exact not_lt.mpr (le_of_eq ha.symm)
    have h4 : v ≤ a := by rw [F.le_iff]; exact le_of_eq ha.symm
    have h5 : v ≤ b := by rw [F.le_iff]; exact le_of_lt hb
    simp [edgeCuts, h1, h2', h3', h4, h5]
  · have h1 : (a - v) * (b - v) < 0 := by
      rw [F.lt_iff]
      simp only [F.q_mul, F.q_sub, F.q_zero]
      nlinarith
    have h4 : v ≤ a := by rw [F.le_iff]; exact le_of_lt ha
    have h5 : ¬v ≤ b := by rw [F.le_iff]; exact not_le.mpr hb
    simp [edgeCuts, h1, h4, h5]
  · have h1 : ¬(a - v) * (b - v) < 0 := by
      rw [F.lt_iff]
      simp only [F.q_mul, F.q_sub, F.q_zero]
      nlinarith
    have h2 : ¬F.veq a v := by rw [F.veq_iff]; exact ne_of_gt ha
    have h3' : ¬a < v := by rw [F.lt_iff]; exact not_lt.mpr (le_of_lt ha)
    have h4 : v ≤ a := by rw [F.le_iff]; exact le_of_lt ha
    have h5 : v ≤ b := by rw [F.le_iff]; exact le_of_eq hb.symm
    simp [edgeCuts, h1, h2, h3', h4, h5]
  · have h1 : ¬(a - v) * (b - v) < 0 := by
      rw [F.lt_iff]
      simp only [F.q_mul, F.q_sub, F.q_zero]
      nlinarith
    have h2 : ¬F.veq a v := by rw [F.veq_iff]; exact ne_of_gt ha
    have h3 : ¬F.veq b v := by rw [F.veq_iff]; exact ne_of_gt hb
    have h4 : v ≤ a := by rw [F.le_iff]; exact le_of_lt ha
    have h5 : v ≤ b := by rw [F.le_iff]; exact le_of_lt hb
    simp [edgeCuts, h1, h2, h3, h4, h5]

/-- The total cut count of `Square::ends_of_edge` is the number of
side-changing edges around the square's 4-cycle. -/
theorem endsOfEdge_length (s : SquareIn) (v : F) :
    (endsOfEdge s v).length =
      (if (v ≤ s.p00 ↔ v ≤ s.p10) then 0 else 1) +
        ((if (v ≤ s.p00 ↔ v ≤ s.p01) then 0 else 1) +
          ((if (v ≤ s.p10 ↔ v ≤ s.p11) then 0 else 1) +
            (if (v ≤ s.p01 ↔ v ≤ s.p11) then 0 else 1))) := by
  rw [endsOfEdge]
  simp only [List.length_append, edgeCuts_length]
  omega

/-- C6: for every 4-corner square input whose corners are not all on one side
of the threshold (corner mask neither `0` nor `15`), `Square::ends_of_edge`
records exactly 2 or exactly 4 cut points, and the fatal
internal-consistency branch (`number_cuts != 0 && != 2 && != 4`, followed by
`exit(1)`) is unreachable. -/
theorem C6_square_cut_count (s : SquareIn) (v : F)
    (h : squareMask s v ≠ 0 ∧ squareMask s v ≠ 15) :
    ((endsOfEdge s v).length = 2 ∨ (endsOfEdge s v).length = 4) ∧
      ¬endsOfEdgeFatal s v := by
  have hlen :
      (endsOfEdge s v).length = 2 ∨ (endsOfEdge s v).length = 4 := by
    rw [endsOfEdge_length]
    unfold squareMask at h
    by_cases h00 : v ≤ s.p00 <;> by_cases h01 : v ≤ s.p01 <;>
      by_cases h10 : v ≤ s.p10 <;> by_cases h11 : v ≤ s.p11 <;>
      simp [h00, h01, h10, h11] at h ⊢
  refine ⟨hlen, fun hf => ?_⟩
  rw [endsOfEdgeFatal] at hf
  rcases hlen with h2 | h4
  · exact hf.2.1 h2
  · exact hf.2.2 h4

/-- Witness for C6 at a concrete input: the unit square with corners
`0, 1, 1, 0` and threshold `1/2` has a mixed mask, and the conclusion holds
there. -/
theorem C6_square_cut_count_witness :
    (squareMask
          { p00 := 0, p01 := 1, p10 := 1, p11 := 0, x1 := 2, x2 := 3, c1 := 0,
            c2 := 1, cv1 := 0, cv2 := 0, dx := [1, 1, 1, 1] } (1/2) ≠ 0 ∧
        squareMask
          { p00 := 0, p01 := 1, p10 := 1, p11 := 0, x1 := 2, x2 := 3, c1 := 0,
            c2 := 1, cv1 := 0, cv2 := 0, dx := [1, 1, 1, 1] } (1/2) ≠ 15) ∧
      (((endsOfEdge
              { p00 := 0, p01 := 1, p10 := 1, p11 := 0, x1 := 2, x2 := 3,
                c1 := 0, c2 := 1, cv1 := 0, cv2 := 0,
                dx := [1, 1, 1, 1] } (1/2)).length = 2 ∨
          (endsOfEdge
              { p00 := 0, p01 := 1, p10 := 1, p11 := 0, x1 := 2, x2 := 3,
                c1 := 0, c2 := 1, cv1 := 0, cv2 := 0,
                dx := [1, 1, 1, 1] } (1/2)).length = 4) ∧
        ¬endsOfEdgeFatal
            { p00 := 0, p01 := 1, p10 := 1, p11 := 0, x1 := 2, x2 := 3,
              c1 := 0, c2 := 1, cv1 := 0, cv2 := 0,
              dx := [1, 1, 1, 1] } (1/2)) :=
  ⟨by decide, C6_square_cut_count _ _ (by decide)⟩

/-! ## Cube ambiguity (claim C2) -/

/-- Swapping `cuts[1]` and `cuts[2]` (the `std::swap` call) preserves the number of cuts. -/
theorem swapCuts12_length (cuts : List (F × F)) :
    (swapCuts12 cuts).length = cuts.length := by
  rcases cuts with _ | ⟨c0, _ | ⟨c1, _ | ⟨c2, rest⟩⟩⟩ <;> rfl

/-- Method `Square::find_outside` only reorders the cuts, never changes their
number. -/
theorem findOutside_fst_length (s : SquareIn) (v : F) (cuts : List (F × F)) :
    ((findOutside s v cuts).1).length = cuts.length := by
  unfold findOutside
  split_ifs <;> simp [swapCuts12_length]

/-- The line-building loop makes one line out of every two cuts. -/
theorem mkSquareLines_length (s : SquareIn) :
    ∀ (cuts : List (F × F)) (outs : (F × F) × (F × F)),
      (mkSquareLines s outs cuts).length = cuts.length / 2
  | [], _ => by simp [mkSquareLines]
  | [_], _ => by simp [mkSquareLines]
  | _ :: _ :: rest, outs => by
    rw [mkSquareLines]
    simp only [List.length_cons, mkSquareLines_length s rest (outs.2, outs.2)]
    omega

/-- A square flagged ambiguous (the four-cut case) contributes exactly two
lines. -/
theorem constructLines_ambiguous_lines (s : SquareIn) (v : F)
    (h : (constructLines s v).ambiguous = true) :
    (constructLines s v).lines.length = 2 := by
  unfold constructLines at h ⊢
  by_cases hm : squareMask s v = 0 ∨ squareMask s v = 15
  · rw [if_pos hm] at h
    exact absurd h (by simp)
  · rw [if_neg hm] at h ⊢
    simp only [decide_eq_true_eq] at h
    simp only [mkSquareLines_length]
    rw [if_pos (by omega : (endsOfEdge s v).length > 0), findOutside_fst_length,
      h]

/-- Field `numberLines` of a square result is the length of its line list. -/
theorem constructLines_numberLines (s : SquareIn) (v : F) :
    (constructLines s v).numberLines = (constructLines s v).lines.length := by
  unfold constructLines
  split_ifs <;> rfl

/-- C2 (amended): after `Cube::construct_polygons`, the cube's `ambiguous`
flag holds exactly when some constituent square was ambiguous or when exactly
6 lines were found — with no condition on how many corners lie below the
threshold. -/
theorem C2_cube_ambiguity_amended (cu : Grid3) (constI : ℕ) (constV : F)
    (dx : List F) (v : F) :
    (cubeMeta cu constI constV dx v).ambiguous =
      ((cubeMeta cu constI constV dx v).anySquareAmbiguous ||
        decide ((cubeMeta cu constI constV dx v).numberLines = 6)) := by
  simp only [cubeMeta]
  by_cases hL :
      ((((cubeSquares cu constI constV dx).map (constructLines · v)).map
          SquareOut.lines).flatten).length = 0
  · rw [if_pos hL]
    have hA : ((cubeSquares cu constI constV dx).map
        (constructLines · v)).any SquareOut.ambiguous = false := by
      by_contra hany
      rw [Bool.not_eq_false, List.any_eq_true] at hany
      obtain ⟨o, ho, hamb⟩ := hany
      rw [List.mem_map] at ho
      obtain ⟨sq, hsq, rfl⟩ := ho
      have h2 := constructLines_ambiguous_lines sq v hamb
      have hmem : (constructLines sq v).lines.length ∈
          ((((cubeSquares cu constI constV dx).map (constructLines · v)).map
            SquareOut.lines).map List.length) :=
        List.mem_map_of_mem List.length
          (List.mem_map_of_mem SquareOut.lines
            (List.mem_map_of_mem (constructLines · v) hsq))
      have hle := List.single_le_sum (fun x _ => Nat.zero_le x) _ hmem
      rw [← List.length_flatten] at hle
      omega
    simp only [List.length_flatten, List.map_map] at hL
    simp [hA, hL]
  · rw [if_neg hL]

/-- C2 counterexample: for the cube `cuC2ex` (corners `(0,0,0)` and `(1,1,1)`
above threshold `1/2`, the other six below), the code flags the cube ambiguous
(6 lines), although no square is ambiguous and the number of corners below the
threshold is 6, not 2 — so "6 lines and exactly 2 of 8 corners below" is *not*
necessary for the flag. -/
theorem C2_counterexample :
    (cubeMeta cuC2ex 0 0 [1, 1, 1, 1] (1/2)).ambiguous = true ∧
      ¬((cubeMeta cuC2ex 0 0 [1, 1, 1, 1] (1/2)).anySquareAmbiguous = true ∨
        ((cubeMeta cuC2ex 0 0 [1, 1, 1, 1] (1/2)).numberLines = 6 ∧
          (corners3 cuC2ex).countP (fun x => decide (x < (1/2 : F))) = 2)) := by
  decide

/-! ## The 2-D saddle disambiguation (claim C3) -/

/-- C3 (amended): in the four-cut case, `Square::find_outside` swaps cuts 1
and 2 (the "//" pairing) exactly when the cell-centre value and the corner at
`(0,0)` lie strictly on the *same* side of the threshold, and keeps the
recorded order (the "\\" pairing) otherwise — the opposite orientation of the
one the claim states. -/
theorem C3_saddle_swap_amended (s : SquareIn) (v : F)
    (h : (endsOfEdge s v).length = 4) :
    (findOutside s v (endsOfEdge s v)).1 =
      if (s.p00 < v ∧ (s.p00 + s.p01 + s.p10 + s.p11) / 4 < v) ∨
          (v < s.p00 ∧ v < (s.p00 + s.p01 + s.p10 + s.p11) / 4) then
        swapCuts12 (endsOfEdge s v)
      else endsOfEdge s v := by
  unfold findOutside findOutsideSwaps
  rw [if_pos h]
  simp only [Bool.if_true_left, decide_eq_true_eq]

/-- Witness for the amended C3 at the concrete saddle square `sqC3ex` with
threshold `3/5`. -/
theorem C3_saddle_swap_amended_witness :
    (endsOfEdge sqC3ex (3/5)).length = 4 ∧
      (findOutside sqC3ex (3/5) (endsOfEdge sqC3ex (3/5))).1 =
        (if (sqC3ex.p00 < (3/5 : F) ∧
              (sqC3ex.p00 + sqC3ex.p01 + sqC3ex.p10 + sqC3ex.p11) / 4 <
                (3/5 : F)) ∨
            ((3/5 : F) < sqC3ex.p00 ∧
              (3/5 : F) < (sqC3ex.p00 + sqC3ex.p01 + sqC3ex.p10 + sqC3ex.p11) / 4)
          then swapCuts12 (endsOfEdge sqC3ex (3/5))
          else endsOfEdge sqC3ex (3/5)) :=
  ⟨by decide, C3_saddle_swap_amended _ _ (by decide)⟩

/-- C3 counterexample: on the saddle square `sqC3ex` with threshold `3/5`, the
corner `(0,0)` and the cell centre are both strictly below the threshold (the
classifications *agree*), yet the cut at position 1 after `find_outside`
differs in value from the recorded cut at position 1 — the cuts were swapped,
not "kept in recorded order" as the claim states for the agreeing case. -/
theorem C3_counterexample :
    (sqC3ex.p00 < (3/5 : F) ∧
        (sqC3ex.p00 + sqC3ex.p01 + sqC3ex.p10 + sqC3ex.p11) / 4 < (3/5 : F)) ∧
      (endsOfEdge sqC3ex (3/5)).length = 4 ∧
      ¬F.veq
          (((findOutside sqC3ex (3/5) (endsOfEdge sqC3ex (3/5))).1.getD 1
              (0, 0)).1)
          (((endsOfEdge sqC3ex (3/5)).getD 1 (0, 0)).1) := by
  decide

/-! ## The hypercube ambiguity argument bug (claim C1) -/

/-- C1: evaluation of the code at the failing input `hcC1ex` (corners
`(0,0,0,0)` and `(1,1,1,1)` below threshold `1/2`, all others above).  No cube
is ambiguous, 24 lines are found and exactly 2 of the 16 corners are below the
threshold, so the claimed condition (and `check_ambiguity` applied to the
documented argument, the below-corner count) yields `true` — but the flag the
code computes is `false`, because `construct_polyhedra` passes the threshold
`value` itself (truncated from `double` to `int`, here to `0`) instead of the
count it just computed. -/
theorem C1_hypercube_ambiguity_bug :
    hypercubeAmbiguousAsCoded hcC1ex [1, 1, 1, 1] (1/2) = false ∧
      hypercubeAnyCubeAmbiguous hcC1ex [1, 1, 1, 1] (1/2) = false ∧
      hypercubeNumberLines hcC1ex [1, 1, 1, 1] (1/2) = 24 ∧
      pointsBelow4 hcC1ex (1/2) = 2 ∧
      hyperCheckAmbiguity (hypercubeAnyCubeAmbiguous hcC1ex [1, 1, 1, 1] (1/2))
          (hypercubeNumberLines hcC1ex [1, 1, 1, 1] (1/2))
          ((pointsBelow4 hcC1ex (1/2) : ℕ) : ℤ) = true ∧
      F.truncInt (1/2) = 0 := by
  decide

/-! ## Cells entirely on one side of the threshold (claim C5) -/

/-- Strict order implies non-strict order on fractions. -/
theorem F.le_of_lt' {a b : F} (h : a < b) : a ≤ b := by
  rw [F.le_iff]
  exact le_of_lt ((F.lt_iff a b).mp h)

/-- Strict order contradicts the reverse non-strict order on fractions. -/
theorem F.not_le_of_lt' {a b : F} (h : a < b) : ¬b ≤ a := by
  rw [F.le_iff]
  exact not_le.mpr ((F.lt_iff a b).mp h)

/-- C5: a query on a cell all of whose corner values are strictly above, or
all strictly below, the threshold produces zero surface elements, in each of
the three dimensions (2-D: the corner mask is full or empty so no line is
built; 3-D/4-D: the cheap pre-check short-circuits). -/
theorem C5_uncrossed_cells_zero_elements :
    (∀ (cu : Grid2) (dx : List F) (v : F),
        ((∀ x ∈ corners2 cu, v < x) ∨ (∀ x ∈ corners2 cu, x < v)) →
          findSurface2dCount cu dx v = 0) ∧
      (∀ (cu : Grid3) (dx : List F) (v : F),
        ((∀ x ∈ corners3 cu, v < x) ∨ (∀ x ∈ corners3 cu, x < v)) →
          surface3dCount cu dx v = .ok 0) ∧
      (∀ (hc : Grid4) (dx : List F) (v : F),
        ((∀ x ∈ corners4 hc, v < x) ∨ (∀ x ∈ corners4 hc, x < v)) →
          findSurface4dCount hc dx v = .ok 0) := by
  refine ⟨?_, ?_, ?_⟩
  · intro cu dx v h
    have h00 : g2 cu 0 0 ∈ corners2 cu := by simp [corners2]
    have h01 : g2 cu 0 1 ∈ corners2 cu := by simp [corners2]
    have h10 : g2 cu 1 0 ∈ corners2 cu := by simp [corners2]
    have h11 : g2 cu 1 1 ∈ corners2 cu := by simp [corners2]
    have hmask : squareMask (findSurface2dSquare cu dx) v = 0 ∨
        squareMask (findSurface2dSquare cu dx) v = 15 := by
      rcases h with h | h
      · right
        simp only [squareMask, findSurface2dSquare, mkSquareIn]
        rw [if_pos (F.le_of_lt' (h _ h00)), if_pos (F.le_of_lt' (h _ h01)),
          if_pos (F.le_of_lt' (h _ h10)), if_pos (F.le_of_lt' (h _ h11))]
      · left
        simp only [squareMask, findSurface2dSquare, mkSquareIn]
        rw [if_neg (F.not_le_of_lt' (h _ h00)), if_neg (F.not_le_of_lt' (h _ h01)),
          if_neg (F.not_le_of_lt' (h _ h10)), if_neg (F.not_le_of_lt' (h _ h11))]
    unfold findSurface2dCount constructLines
    rw [if_pos hmask]
  · intro cu dx v h
    unfold surface3dCount
    rcases h with h | h
    · have hcnt : (corners3 cu).countP (fun x => decide (v ≤ x)) =
          (corners3 cu).length :=
        List.countP_eq_length.mpr fun a ha =>
          decide_eq_true (F.le_of_lt' (h a ha))
      rw [if_pos (Or.inr (by rw [hcnt]; rfl))]
    · have hcnt : (corners3 cu).countP (fun x => decide (v ≤ x)) = 0 :=
        List.countP_eq_zero.mpr fun a ha => by
          simp [F.not_le_of_lt' (h a ha)]
      rw [if_pos (Or.inl hcnt)]
  · intro hc dx v h
    unfold findSurface4dCount
    rcases h with h | h
    · have hcnt : (corners4 hc).countP (fun x => decide (v ≤ x)) =
          (corners4 hc).length :=
        List.countP_eq_length.mpr fun a ha =>
          decide_eq_true (F.le_of_lt' (h a ha))
      rw [if_pos (Or.inr (by rw [hcnt]; rfl))]
    · have hcnt : (corners4 hc).countP (fun x => decide (v ≤ x)) = 0 :=
        List.countP_eq_zero.mpr fun a ha => by
          simp [F.not_le_of_lt' (h a ha)]
      rw [if_pos (Or.inl hcnt)]

/-- Witness for C5: cells with all corners `1` and threshold `2` (all corners
strictly below) yield zero elements in all three dimensions. -/
theorem C5_uncrossed_cells_zero_elements_witness :
    (∀ x ∈ corners2 cu2C5ex, x < (2 : F)) ∧
      findSurface2dCount cu2C5ex [1, 1, 1, 1] 2 = 0 ∧
      surface3dCount cu3C5ex [1, 1, 1, 1] 2 = .ok 0 ∧
      findSurface4dCount hc4C5ex [1, 1, 1, 1] 2 = .ok 0 :=
  ⟨by decide,
    C5_uncrossed_cells_zero_elements.1 cu2C5ex [1, 1, 1, 1] 2
      (Or.inr (by decide)),
    C5_uncrossed_cells_zero_elements.2.1 cu3C5ex [1, 1, 1, 1] 2
      (Or.inr (by decide)),
    C5_uncrossed_cells_zero_elements.2.2 hc4C5ex [1, 1, 1, 1] 2
      (Or.inr (by decide))⟩

/-! ## Topology errors when starting a new polygon/polyhedron (claim C7) -/

/-- C7 (amended): in the 3-D cube loop, whenever a new polygon must start
(an iteration of the `do` loop begins) with fewer than 3 unused lines
remaining, the code reports the fatal topology error
(`"Error: cannot construct polygon"` then `exit(1)`) and builds nothing.
The 4-D polyhedron loop performs no such check (see `C7_counterexample`). -/
theorem C7_cube_topology_error_amended (lines : List Line) (fuel used : ℕ)
    (nu : List Bool) (acc : List Polygon)
    (h : lines.length - used < 3) :
    cubeDoLoop lines (fuel + 1) used nu acc =
      .error "Error: cannot construct polygon" := by
  rw [cubeDoLoop]
  rw [if_pos h]

/-- Witness for the amended C7: an ambiguous-path cube state with two unused
lines errors out immediately. -/
theorem C7_cube_topology_error_amended_witness :
    ([lineC4a, lineC4b].length - 0 < 3) ∧
      cubeDoLoop [lineC4a, lineC4b] 3 0 [true, true] [] =
        .error "Error: cannot construct polygon" :=
  ⟨by decide,
    C7_cube_topology_error_amended [lineC4a, lineC4b] 2 0 [true, true] []
      (by decide)⟩

/-- C7 counterexample: the 4-D polyhedron loop of
`Hypercube::construct_polyhedra`, started on two mutually unconnected
triangle polygons, must begin a new polyhedron although only 2 unused polygons
remain — and instead of reporting a fatal topology error it silently builds
two polyhedra of one polygon each. -/
theorem C7_counterexample :
    [triC7a, triC7b].length - 0 < 3 ∧
      (hyperDoLoop [triC7a, triC7b] 3 0 [true, true] []).map
          (List.map fun ph => ph.polys.length) = some [1, 1] := by
  decide

/-! ## Result accessors (claims C8 and C10) -/

/-- C8: for non-negative indices, `get_centroid_element` and
`get_normal_element` throw the catchable `std::out_of_range` exactly when
`i >= number_elements` or `c >= cube_dimension`, and otherwise return the
stored component `buffer[i][c + (DIM - cube_dimension)]`.  The state
hypotheses say the buffers are as a query leaves them: one row of `DIM = 4`
components per element, and a dimension between 0 and 4.  (Negative indices
are the subject of C10.) -/
theorem C8_accessor_contract (st : CorneliusState) (i c : ℤ)
    (hi : 0 ≤ i) (hc : 0 ≤ c)
    (hnc : (st.centroids.length : ℤ) = st.numberElements)
    (hnn : (st.normals.length : ℤ) = st.numberElements)
    (hrc : ∀ r ∈ st.centroids, r.length = 4)
    (hrn : ∀ r ∈ st.normals, r.length = 4)
    (hd0 : 0 ≤ st.cubeDimension) (hd4 : st.cubeDimension ≤ 4) :
    ((st.numberElements ≤ i ∨ st.cubeDimension ≤ c) →
        getCentroidElement st i c = .error outOfRangeMsg ∧
          getNormalElement st i c = .error outOfRangeMsg) ∧
      (i < st.numberElements → c < st.cubeDimension →
        (∃ x, getCentroidElement st i c = .ok (some x) ∧
            (st.centroids.getD i.toNat []).getD
              (c + (4 - st.cubeDimension)).toNat 0 = x) ∧
          ∃ x, getNormalElement st i c = .ok (some x) ∧
            (st.normals.getD i.toNat []).getD
              (c + (4 - st.cubeDimension)).toNat 0 = x) := by
  constructor
  · intro hout
    unfold getCentroidElement getNormalElement
    rw [if_pos hout, if_pos hout]
    exact ⟨rfl, rfl⟩
  · intro hilt hclt
    have hout : ¬(st.numberElements ≤ i ∨ st.cubeDimension ≤ c) := by
      push_neg
      exact ⟨hilt, hclt⟩
    have hrowc : (st.centroids.getD i.toNat []) ∈ st.centroids := by
      have hlt : i.toNat < st.centroids.length := by omega
      rw [List.getD_eq_getElem st.centroids [] hlt]
      exact List.getElem_mem hlt
    have hrown : (st.normals.getD i.toNat []) ∈ st.normals := by
      have hlt : i.toNat < st.normals.length := by omega
      rw [List.getD_eq_getElem st.normals [] hlt]
      exact List.getElem_mem hlt
    have hlenc : (st.centroids.getD i.toNat []).length = 4 := hrc _ hrowc
    have hlenn : (st.normals.getD i.toNat []).length = 4 := hrn _ hrown
    have hidxc : (c + (4 - st.cubeDimension)).toNat <
        (st.centroids.getD i.toNat []).length := by omega
    have hidxn : (c + (4 - st.cubeDimension)).toNat <
        (st.normals.getD i.toNat []).length := by omega
    constructor
    · refine ⟨(st.centroids.getD i.toNat []).getD
        (c + (4 - st.cubeDimension)).toNat 0, ?_, rfl⟩
      unfold getCentroidElement rawAccess
      rw [if_neg hout, if_pos ⟨hi, by omega⟩]
      rw [List.getD_eq_getElem _ 0 hidxc, List.get?_eq_getElem?,
        List.getElem?_eq_getElem hidxc]
    · refine ⟨(st.normals.getD i.toNat []).getD
        (c + (4 - st.cubeDimension)).toNat 0, ?_, rfl⟩
      unfold getNormalElement rawAccess
      rw [if_neg hout, if_pos ⟨hi, by omega⟩]
      rw [List.getD_eq_getElem _ 0 hidxn, List.get?_eq_getElem?,
        List.getElem?_eq_getElem hidxn]

/-- Witness for C8 at the one-element 3-D state `stC8ex` with `i = 0`,
`c = 0`. -/
theorem C8_accessor_contract_witness :
    ((0 : ℤ) ≤ 0 ∧ (stC8ex.centroids.length : ℤ) = stC8ex.numberElements ∧
        (∀ r ∈ stC8ex.centroids, r.length = 4) ∧
        (∀ r ∈ stC8ex.normals, r.length = 4) ∧
        0 ≤ stC8ex.cubeDimension ∧ stC8ex.cubeDimension ≤ 4) ∧
      (((stC8ex.numberElements ≤ (0 : ℤ) ∨ stC8ex.cubeDimension ≤ (0 : ℤ)) →
          getCentroidElement stC8ex 0 0 = .error outOfRangeMsg ∧
            getNormalElement stC8ex 0 0 = .error outOfRangeMsg) ∧
        ((0 : ℤ) < stC8ex.numberElements → (0 : ℤ) < stC8ex.cubeDimension →
          (∃ x, getCentroidElement stC8ex 0 0 = .ok (some x) ∧
              (stC8ex.centroids.getD (0 : ℤ).toNat []).getD
                ((0 : ℤ) + (4 - stC8ex.cubeDimension)).toNat 0 = x) ∧
            ∃ x, getNormalElement stC8ex 0 0 = .ok (some x) ∧
              (stC8ex.normals.getD (0 : ℤ).toNat []).getD
                ((0 : ℤ) + (4 - stC8ex.cubeDimension)).toNat 0 = x)) :=
  ⟨⟨by decide, by decide, by decide, by decide, by decide, by decide⟩,
    C8_accessor_contract stC8ex 0 0 (by decide) (by decide) (by decide)
      (by decide) (by decide) (by decide) (by decide) (by decide)⟩

/-- C10: on the post-query state `stC10ex` (one element, dimension 3),
negative indices are not rejected: `get_centroid_element(-1, 0)` passes the
guard (only the upper bounds are checked) and reaches the raw array access,
which has no stored value at row `-1`; and `get_normal_element(0, -1)` passes
the guard and reads the *padding* column `normals[0][0]` (the component at
`-1 + (DIM - cube_dimension) = 0`), returning the stored `7` — no
out-of-range error is raised in either call. -/
theorem C10_negative_index_unchecked :
    getCentroidElement stC10ex (-1) 0 = .ok none ∧
      getNormalElement stC10ex 0 (-1) = .ok (some 7) := by
  constructor
  · rfl
  · rfl

/-! ## Line connectivity in polyhedron growth (claim C4) -/

/-- The value of a sum of fractions is the sum of the values. -/
theorem F.q_sum : ∀ l : List F, F.q l.sum = (l.map F.q).sum
  | [] => by simp
  | a :: t => by simp [List.sum_cons, F.q_add, F.q_sum t]

/-- The freezing accumulation loop of `lines_are_connected` computes exactly
the disjunction "first accumulated total within `EPSILON`, or second
accumulated total within `EPSILON`", provided all increments are non-negative
and, on entry, at least one accumulator is still within `EPSILON` (true of the
initial `0, 0`). -/
theorem connectedLoop_spec :
    ∀ (xs : List (F × F)) (d1 d2 : F),
      (∀ p ∈ xs, 0 ≤ F.q p.1 ∧ 0 ≤ F.q p.2) →
      (F.q d1 ≤ F.q EPSILON ∨ F.q d2 ≤ F.q EPSILON) →
      connectedLoop xs d1 d2 =
        decide (F.q d1 + ((xs.map fun p => F.q p.1).sum) ≤ F.q EPSILON ∨
          F.q d2 + ((xs.map fun p => F.q p.2).sum) ≤ F.q EPSILON)
  | [], d1, d2, _, h => by
    simp only [connectedLoop, List.map_nil, List.sum_nil, add_zero]
    exact (decide_eq_true h).symm
  | (x, y) :: rest, d1, d2, hx, h => by
    have hx0 : 0 ≤ F.q x ∧ 0 ≤ F.q y := hx (x, y) (List.mem_cons_self _ _)
    have hxr : ∀ p ∈ rest, 0 ≤ F.q p.1 ∧ 0 ≤ F.q p.2 := fun p hp =>
      hx p (List.mem_cons_of_mem _ hp)
    have hs1 : 0 ≤ ((rest.map fun p => F.q p.1).sum) :=
      List.sum_nonneg fun q hq => by
        obtain ⟨p, hp, rfl⟩ := List.mem_map.mp hq
        exact (hxr p hp).1
    have hs2 : 0 ≤ ((rest.map fun p => F.q p.2).sum) :=
      List.sum_nonneg fun q hq => by
        obtain ⟨p, hp, rfl⟩ := List.mem_map.mp hq
        exact (hxr p hp).2
    rw [connectedLoop]
    by_cases h1 : d1 ≤ EPSILON <;> by_cases h2 : d2 ≤ EPSILON
    · rw [if_pos h1, if_pos h2]
      by_cases hstop : EPSILON < d1 + x ∧ EPSILON < d2 + y
      · rw [if_pos hstop]
        have hq1 : F.q EPSILON < F.q d1 + F.q x :=
          (F.q_add d1 x) ▸ (F.lt_iff _ _).mp hstop.1
        have hq2 : F.q EPSILON < F.q d2 + F.q y :=
          (F.q_add d2 y) ▸ (F.lt_iff _ _).mp hstop.2
        symm
        apply decide_eq_false
        simp only [List.map_cons, List.sum_cons]
        push_neg
        refine ⟨?_, ?_⟩
        · linarith only [hq1, hs1]
        · linarith only [hq2, hs2]
      · rw [if_neg hstop]
        have hpre : F.q (d1 + x) ≤ F.q EPSILON ∨
            F.q (d2 + y) ≤ F.q EPSILON := by
          rcases not_and_or.mp hstop with hh | hh
          · exact Or.inl (not_lt.mp fun hc => hh ((F.lt_iff _ _).mpr hc))
          · exact Or.inr (not_lt.mp fun hc => hh ((F.lt_iff _ _).mpr hc))
        rw [connectedLoop_spec rest (d1 + x) (d2 + y) hxr hpre]
        rw [decide_eq_decide]
        simp only [List.map_cons, List.sum_cons, F.q_add]
        constructor <;> rintro (hh | hh)
        · exact Or.inl (by linarith only [hh])
        · exact Or.inr (by linarith only [hh])
        · exact Or.inl (by linarith only [hh])
        · exact Or.inr (by linarith only [hh])
    · rw [if_pos h1, if_neg h2]
      have hq2 : F.q EPSILON < F.q d2 :=
        not_le.mp fun hc => h2 ((F.le_iff _ _).mpr hc)
      by_cases hstop : EPSILON < d1 + x ∧ EPSILON < d2
      · rw [if_pos hstop]
        have hq1 : F.q EPSILON < F.q d1 + F.q x :=
          (F.q_add d1 x) ▸ (F.lt_iff _ _).mp hstop.1
        symm
        apply decide_eq_false
        simp only [List.map_cons, List.sum_cons]
        push_neg
        refine ⟨?_, ?_⟩
        · linarith only [hq1, hs1]
        · linarith only [hq2, hs2, hx0.2]
      · rw [if_neg hstop]
        have hpre : F.q (d1 + x) ≤ F.q EPSILON ∨ F.q d2 ≤ F.q EPSILON := by
          rcases not_and_or.mp hstop with hh | hh
          · exact Or.inl (not_lt.mp fun hc => hh ((F.lt_iff _ _).mpr hc))
          · exact absurd ((F.lt_iff _ _).mpr hq2) hh
        rw [connectedLoop_spec rest (d1 + x) d2 hxr hpre]
        rw [decide_eq_decide]
        simp only [List.map_cons, List.sum_cons, F.q_add]
        constructor <;> rintro (hh | hh)
        · exact Or.inl (by linarith only [hh])
        · exact absurd hh (by push_neg; linarith only [hq2, hs2])
        · exact Or.inl (by linarith only [hh])
        · exact absurd hh (by push_neg; linarith only [hq2, hs2, hx0.2])
    · rw [if_neg h1, if_pos h2]
      have hq1 : F.q EPSILON < F.q d1 :=
        not_le.mp fun hc => h1 ((F.le_iff _ _).mpr hc)
      by_cases hstop : EPSILON < d1 ∧ EPSILON < d2 + y
      · rw [if_pos hstop]
        have hq2 : F.q EPSILON < F.q d2 + F.q y :=
          (F.q_add d2 y) ▸ (F.lt_iff _ _).mp hstop.2
        symm
        apply decide_eq_false
        simp only [List.map_cons, List.sum_cons]
        push_neg
        refine ⟨?_, ?_⟩
        · linarith only [hq1, hs1, hx0.1]
        · linarith only [hq2, hs2]
      · rw [if_neg hstop]
        have hpre : F.q d1 ≤ F.q EPSILON ∨ F.q (d2 + y) ≤ F.q EPSILON := by
          rcases not_and_or.mp hstop with hh | hh
          · exact absurd ((F.lt_iff _ _).mpr hq1) hh
          · exact Or.inr (not_lt.mp fun hc => hh ((F.lt_iff _ _).mpr hc))
        rw [connectedLoop_spec rest d1 (d2 + y) hxr hpre]
        rw [decide_eq_decide]
        simp only [List.map_cons, List.sum_cons, F.q_add]
        constructor <;> rintro (hh | hh)
        · exact absurd hh (by push_neg; linarith only [hq1, hs1])
        · exact Or.inr (by linarith only [hh])
        · exact absurd hh (by push_neg; linarith only [hq1, hs1, hx0.1])
        · exact Or.inr (by linarith only [hh])
    · rcases h with h | h
      · exact absurd ((F.le_iff d1 EPSILON).mpr h) h1
      · exact absurd ((F.le_iff d2 EPSILON).mpr h) h2

/-- A list of length four is literally a four-element list. -/
theorem list_len4 {α : Type} :
    ∀ (l : List α), l.length = 4 → ∃ a b c d, l = [a, b, c, d]
  | [a, b, c, d], _ => ⟨a, b, c, d, rfl⟩
  | [], h => by simp at h
  | [_], h => by simp at h
  | [_, _], h => by simp at h
  | [_, _, _], h => by simp at h
  | _ :: _ :: _ :: _ :: _ :: _, h => by simp at h

/-- C4 (amended): for 4-coordinate points (the only kind the code builds),
`Polyhedron::lines_are_connected` holds exactly when the *start* point of the
second line lies within `EPSILON` — in summed coordinate-wise absolute
difference — of the first line's start point or of its end point.  The second
line's end point is never examined. -/
theorem C4_lines_connected_amended (l1 l2 : Line)
    (h1 : l1.startP.length = 4) (h2 : l1.endP.length = 4)
    (h3 : l2.startP.length = 4) :
    (linesAreConnected l1 l2 = true ↔
      (absDistSum l1.startP l2.startP ≤ EPSILON ∨
        absDistSum l1.endP l2.startP ≤ EPSILON)) := by
  obtain ⟨a0, a1, a2, a3, hA⟩ := list_len4 _ h1
  obtain ⟨b0, b1, b2, b3, hB⟩ := list_len4 _ h2
  obtain ⟨c0, c1, c2, c3, hC⟩ := list_len4 _ h3
  have heps : (0 : ℚ) < F.q EPSILON := by norm_num [F.q, EPSILON]
  rw [linesAreConnected, absDistSum, absDistSum, hA, hB, hC]
  simp only [List.zipWith_cons_cons, List.zipWith_nil_right,
    List.zipWith_nil_left]
  rw [connectedLoop_spec _ 0 0 ?_ ?_]
  · rw [decide_eq_true_eq]
    simp only [List.map_cons, List.map_nil, List.sum_cons, List.sum_nil,
      F.le_iff, F.q_sum, F.q_ofNat, List.map, F.q_add]
    norm_num
  · intro p hp
    simp only [List.mem_cons, List.not_mem_nil, or_false] at hp
    rcases hp with rfl | rfl | rfl | rfl <;>
      exact ⟨by rw [F.q_abs]; exact abs_nonneg _,
        by rw [F.q_abs]; exact abs_nonneg _⟩
  · left
    rw [F.q_ofNat 0]
    simp only [Nat.cast_zero, Nat.cast_ofNat]
    exact le_of_lt heps

/-- Witness for the amended C4 at the concrete line pair
`lineC4a`, `lineC4b`. -/
theorem C4_lines_connected_amended_witness :
    (lineC4a.startP.length = 4 ∧ lineC4a.endP.length = 4 ∧
        lineC4b.startP.length = 4) ∧
      (linesAreConnected lineC4a lineC4b = true ↔
        (absDistSum lineC4a.startP lineC4b.startP ≤ EPSILON ∨
          absDistSum lineC4a.endP lineC4b.startP ≤ EPSILON)) :=
  ⟨⟨by decide, by decide, by decide⟩,
    C4_lines_connected_amended lineC4a lineC4b (by decide) (by decide)
      (by decide)⟩

/-- C4 counterexample: the end points of `lineC4a` and `lineC4b` coincide
exactly (coordinate-wise distance 0, within `EPSILON` under any reading),
so under the claim — "connected iff any two of their endpoints coincide
within EPSILON" — the lines are connected; but `lines_are_connected`, which
never inspects the second line's end point, returns `false`. -/
theorem C4_counterexample :
    absDistSum lineC4a.endP lineC4b.endP ≤ EPSILON ∧
      linesAreConnected lineC4a lineC4b = false := by
  decide

end Cornelius
